import Mathlib

/-!
A verification development for the curve kernel (GskCurve) and the font
dialog (GtkFontDialog) of this GTK source tree.

The repository files at hand contain the full gtkfontdialog.c, and the
gskcurve private header (the tagged-union layout and the entry points of the
curve kernel). The curve kernel implementation itself is not among the
files, so its operations are modelled from the specification: each such
definition carries a doc comment starting with the words Modelled from the
spec. The geometry is embedded over the real numbers, the idealization of
the float arithmetic the C code uses.
-/

namespace GskCurveKernel

noncomputable section

/-- A 2D point with real coordinates, standing for graphene_point_t. -/
@[ext] structure GraphenePoint where
  x : ℝ
  y : ℝ

/-- A homogeneous 3D point used for the rational (conic) computations,
standing for graphene_point3d_t. -/
@[ext] structure HomPoint where
  x : ℝ
  y : ℝ
  z : ℝ

/-- Linear interpolation between two points: the de Casteljau primitive. -/
def lerp (a b : GraphenePoint) (t : ℝ) : GraphenePoint :=
  ⟨(1 - t) * a.x + t * b.x, (1 - t) * a.y + t * b.y⟩

/-- Linear interpolation in homogeneous coordinates. -/
def hlerp (a b : HomPoint) (t : ℝ) : HomPoint :=
  ⟨(1 - t) * a.x + t * b.x, (1 - t) * a.y + t * b.y, (1 - t) * a.z + t * b.z⟩

/-- Lift a point to homogeneous coordinates with weight w. -/
def homog (p : GraphenePoint) (w : ℝ) : HomPoint :=
  ⟨w * p.x, w * p.y, w⟩

/-- Projection from homogeneous coordinates back to the plane. -/
def project (h : HomPoint) : GraphenePoint :=
  ⟨h.x / h.z, h.y / h.z⟩

/-- The path operation tag (GskPathOperation of gskpathopprivate.h). -/
inductive GskPathOperation where
  | move
  | close
  | line
  | quad
  | cubic
  | conic
deriving DecidableEq

/-- Modelled from the spec: the GskCurve tagged union of gskcurveprivate.h
(whose C definition overlays four variant structs), rendered as the
discriminated variant type the design notes of the spec prescribe. A line
holds 2 control points, a quad 3, a cubic 4; a conic holds 3 control points
and a rational weight. The cached coefficient fields of the C structs are
representable values derived from the control points, so the model keeps
only the control points, which by the data-model invariant determine every
evaluation. -/
inductive GskCurve where
  | line (p0 p1 : GraphenePoint)
  | quad (p0 p1 p2 : GraphenePoint)
  | cubic (p0 p1 p2 p3 : GraphenePoint)
  | conic (p0 p1 p2 : GraphenePoint) (w : ℝ)

/-- Modelled from the spec: gsk_curve_get_point, whose implementation is not
among the files. Evaluates the curve position at progress t: linear
interpolation for lines, the Bernstein form for quads and cubics, and the
rational quadratic parametrization for conics (numerator and denominator as
the spec describes the cached coefficient triples). -/
def gsk_curve_get_point (c : GskCurve) (t : ℝ) : GraphenePoint :=
  match c with
  | .line p0 p1 => lerp p0 p1 t
  | .quad p0 p1 p2 =>
      ⟨(1 - t) ^ 2 * p0.x + 2 * (1 - t) * t * p1.x + t ^ 2 * p2.x,
       (1 - t) ^ 2 * p0.y + 2 * (1 - t) * t * p1.y + t ^ 2 * p2.y⟩
  | .cubic p0 p1 p2 p3 =>
      ⟨(1 - t) ^ 3 * p0.x + 3 * (1 - t) ^ 2 * t * p1.x
         + 3 * (1 - t) * t ^ 2 * p2.x + t ^ 3 * p3.x,
       (1 - t) ^ 3 * p0.y + 3 * (1 - t) ^ 2 * t * p1.y
         + 3 * (1 - t) * t ^ 2 * p2.y + t ^ 3 * p3.y⟩
  | .conic p0 p1 p2 w =>
      ⟨((1 - t) ^ 2 * p0.x + 2 * (1 - t) * t * w * p1.x + t ^ 2 * p2.x)
         / ((1 - t) ^ 2 + 2 * (1 - t) * t * w + t ^ 2),
       ((1 - t) ^ 2 * p0.y + 2 * (1 - t) * t * w * p1.y + t ^ 2 * p2.y)
         / ((1 - t) ^ 2 + 2 * (1 - t) * t * w + t ^ 2)⟩

/-- Modelled from the spec: gsk_curve_get_start_point, the O(1) accessor
returning the stored start control point. -/
def gsk_curve_get_start_point : GskCurve → GraphenePoint
  | .line p0 _ => p0
  | .quad p0 _ _ => p0
  | .cubic p0 _ _ _ => p0
  | .conic p0 _ _ _ => p0

/-- Modelled from the spec: gsk_curve_get_end_point, the O(1) accessor
returning the stored end control point. -/
def gsk_curve_get_end_point : GskCurve → GraphenePoint
  | .line _ p1 => p1
  | .quad _ _ p2 => p2
  | .cubic _ _ _ p3 => p3
  | .conic _ _ p2 _ => p2

/-- Modelled from the spec: gsk_curve_split, whose implementation is not
among the files. Algebraic subdivision at the given progress, preserving the
variant: de Casteljau subdivision for the polynomial variants, and the
rational analog (de Casteljau in homogeneous coordinates, then the standard
weight renormalization that returns both halves to the unit-end-weight conic
form) for conics, as the spec prescribes. -/
def gsk_curve_split (c : GskCurve) (t : ℝ) : GskCurve × GskCurve :=
  match c with
  | .line p0 p1 =>
      let m := lerp p0 p1 t
      (.line p0 m, .line m p1)
  | .quad p0 p1 p2 =>
      let a := lerp p0 p1 t
      let b := lerp p1 p2 t
      let m := lerp a b t
      (.quad p0 a m, .quad m b p2)
  | .cubic p0 p1 p2 p3 =>
      let a := lerp p0 p1 t
      let b := lerp p1 p2 t
      let d := lerp p2 p3 t
      let ab := lerp a b t
      let bd := lerp b d t
      let m := lerp ab bd t
      (.cubic p0 a ab m, .cubic m bd d p3)
  | .conic p0 p1 p2 w =>
      let q0 := homog p0 1
      let q1 := homog p1 w
      let q2 := homog p2 1
      let l1 := hlerp q0 q1 t
      let r1 := hlerp q1 q2 t
      let m := hlerp l1 r1 t
      (.conic p0 (project l1) (project m) (l1.z / Real.sqrt m.z),
       .conic (project m) (project r1) p2 (r1.z / Real.sqrt m.z))

/-- Modelled from the spec: gsk_curve_segment, equivalent to composing two
splits, which the model takes as its definition: split off the part before
the start progress, then keep the left half of the remainder split at the
rescaled end progress. -/
def gsk_curve_segment (c : GskCurve) (s e : ℝ) : GskCurve :=
  (gsk_curve_split (gsk_curve_split c s).2 ((e - s) / (1 - s))).1

/-- The smallest of four reals. -/
def min4 (a b c d : ℝ) : ℝ := min (min a b) (min c d)

/-- The largest of four reals. -/
def max4 (a b c d : ℝ) : ℝ := max (max a b) (max c d)

/-- An axis-aligned bounding box, standing for GskBoundingBox of
gskboundingboxprivate.h: a min corner and a max corner. -/
structure GskBoundingBox where
  mn : GraphenePoint
  mx : GraphenePoint

/-- Whether a point lies inside a bounding box. -/
def GskBoundingBox.contains (b : GskBoundingBox) (p : GraphenePoint) : Prop :=
  b.mn.x ≤ p.x ∧ p.x ≤ b.mx.x ∧ b.mn.y ≤ p.y ∧ p.y ≤ b.mx.y

/-- Modelled from the spec: gsk_curve_get_bounds, whose implementation is
not among the files. The fast conservative bounds the spec allows: the
axis-aligned bounding box of the control points (the convex hull bound).
For a conic only the three actual control points enter, not the weight. -/
def gsk_curve_get_bounds : GskCurve → GskBoundingBox
  | .line p0 p1 =>
      ⟨⟨min4 p0.x p1.x p0.x p1.x, min4 p0.y p1.y p0.y p1.y⟩,
       ⟨max4 p0.x p1.x p0.x p1.x, max4 p0.y p1.y p0.y p1.y⟩⟩
  | .quad p0 p1 p2 =>
      ⟨⟨min4 p0.x p1.x p2.x p2.x, min4 p0.y p1.y p2.y p2.y⟩,
       ⟨max4 p0.x p1.x p2.x p2.x, max4 p0.y p1.y p2.y p2.y⟩⟩
  | .cubic p0 p1 p2 p3 =>
      ⟨⟨min4 p0.x p1.x p2.x p3.x, min4 p0.y p1.y p2.y p3.y⟩,
       ⟨max4 p0.x p1.x p2.x p3.x, max4 p0.y p1.y p2.y p3.y⟩⟩
  | .conic p0 p1 p2 _ =>
      ⟨⟨min4 p0.x p1.x p2.x p2.x, min4 p0.y p1.y p2.y p2.y⟩,
       ⟨max4 p0.x p1.x p2.x p2.x, max4 p0.y p1.y p2.y p2.y⟩⟩

/-- The data-model invariant on a curve value: a conic weight is positive
(and in the real-number model every stored coordinate is finite). -/
def curve_valid : GskCurve → Prop
  | .conic _ _ _ w => 0 < w
  | _ => True

/-- Modelled from the spec: the contract of gsk_curve_intersect, whose
implementation is not among the files. The spec specifies the result as the
intersection points of the two curves together with the matched parameter
pair locating each point on either curve; the model is the set of such
matched triples over the unit parameter square. -/
def gsk_curve_intersect_results (c1 c2 : GskCurve) :
    Set (ℝ × ℝ × GraphenePoint) :=
  fun r =>
    (0 ≤ r.1 ∧ r.1 ≤ 1) ∧ (0 ≤ r.2.1 ∧ r.2.1 ≤ 1) ∧
    gsk_curve_get_point c1 r.1 = r.2.2 ∧ gsk_curve_get_point c2 r.2.1 = r.2.2

/-- The reason a decomposition leaf was emitted as a line, standing for the
GskCurveLineReason enum of the header: either the piece is exactly straight
or it is merely short and flat enough for the tolerance. -/
inductive GskCurveLineReason where
  | straight
  | short
deriving DecidableEq

/-- One invocation of a GskCurveAddLineFunc callback: the two endpoints of
the emitted line, its progress range in the parametrization of the original
curve, and the reason code, exactly the arguments of the C callback type. -/
structure EmittedLine where
  from_pt : GraphenePoint
  to_pt : GraphenePoint
  from_progress : ℝ
  to_progress : ℝ
  reason : GskCurveLineReason

/-- One invocation of a GskCurveAddCurveFunc callback: the operation tag,
the control points and the weight of the emitted piece, exactly the
arguments of the C callback type. -/
structure EmittedCurve where
  op : GskPathOperation
  pts : List GraphenePoint
  weight : ℝ

/-- Modelled from the spec: the flatness test of the decomposition, a check
comparing the deviation of the interior control points from the chord
against the tolerance, as the spec words it; a line is always flat. -/
def flat_enough (c : GskCurve) (tol : ℝ) : Prop :=
  match c with
  | .line _ _ => True
  | .quad p0 p1 p2 =>
      |p1.x - (p0.x + p2.x) / 2| ≤ tol ∧ |p1.y - (p0.y + p2.y) / 2| ≤ tol
  | .cubic p0 p1 p2 p3 =>
      (|p1.x - (2 * p0.x + p3.x) / 3| ≤ tol ∧
       |p1.y - (2 * p0.y + p3.y) / 3| ≤ tol) ∧
      (|p2.x - (p0.x + 2 * p3.x) / 3| ≤ tol ∧
       |p2.y - (p0.y + 2 * p3.y) / 3| ≤ tol)
  | .conic p0 p1 p2 _ =>
      |p1.x - (p0.x + p2.x) / 2| ≤ tol ∧ |p1.y - (p0.y + p2.y) / 2| ≤ tol

/-- The reason code a decomposition leaf reports: an exact line is straight,
any other variant is emitted because it became short enough. -/
def reason_of : GskCurve → GskCurveLineReason
  | .line _ _ => .straight
  | _ => .short

/-- Modelled from the spec: the bounded recursion depth of the adaptive
decomposition, the termination control the concurrency section of the spec
requires. -/
def gsk_decompose_max_depth : Nat := 16

/-- The line a decomposition leaf emits for a curve piece covering the given
progress range. -/
def leaf_line (c : GskCurve) (t0 t1 : ℝ) : EmittedLine :=
  ⟨gsk_curve_get_start_point c, gsk_curve_get_end_point c, t0, t1,
    reason_of c⟩

open Classical in
/-- Modelled from the spec: the recursive worker of gsk_curve_decompose,
whose implementation is not among the files. It adaptively subdivides the
curve at the midpoint until a piece passes the flatness test (or the
bounded depth is exhausted), invokes the add-line callback once per leaf in
depth-first order, stops as soon as an invocation returns false, and
propagates the boolean up. It returns the final boolean together with the
list of lines for which the callback was invoked, in invocation order. -/
noncomputable def gsk_curve_decompose_rec (tol : ℝ)
    (cb : EmittedLine → Bool) :
    Nat → GskCurve → ℝ → ℝ → Bool × List EmittedLine
  | 0, c, t0, t1 => (cb (leaf_line c t0 t1), [leaf_line c t0 t1])
  | d + 1, c, t0, t1 =>
      if flat_enough c tol then
        (cb (leaf_line c t0 t1), [leaf_line c t0 t1])
      else
        let tm := (t0 + t1) / 2
        let L := gsk_curve_decompose_rec tol cb d (gsk_curve_split c (1 / 2)).1 t0 tm
        if L.1 then
          let R := gsk_curve_decompose_rec tol cb d (gsk_curve_split c (1 / 2)).2 tm t1
          (R.1, L.2 ++ R.2)
        else (false, L.2)

/-- Modelled from the spec: gsk_curve_decompose, the entry point running the
recursive worker over the whole curve with the bounded depth. -/
noncomputable def gsk_curve_decompose (c : GskCurve) (tol : ℝ)
    (cb : EmittedLine → Bool) : Bool × List EmittedLine :=
  gsk_curve_decompose_rec tol cb gsk_decompose_max_depth c 0 1

/-- The GskPathForeachFlags that tell decompose_curve which operation kinds
may be passed through without further subdivision. -/
structure GskPathForeachFlags where
  allow_quad : Bool
  allow_cubic : Bool
  allow_conic : Bool

/-- The callback arguments describing a curve piece, as decompose_curve
emits it. -/
def curve_as_emitted : GskCurve → EmittedCurve
  | .line p0 p1 => ⟨.line, [p0, p1], 0⟩
  | .quad p0 p1 p2 => ⟨.quad, [p0, p1, p2], 0⟩
  | .cubic p0 p1 p2 p3 => ⟨.cubic, [p0, p1, p2, p3], 0⟩
  | .conic p0 p1 p2 w => ⟨.conic, [p0, p1, p2], w⟩

/-- Whether the flags allow emitting this curve variant directly. -/
def op_allowed (flags : GskPathForeachFlags) : GskCurve → Bool
  | .line _ _ => true
  | .quad _ _ _ => flags.allow_quad
  | .cubic _ _ _ _ => flags.allow_cubic
  | .conic _ _ _ _ => flags.allow_conic

open Classical in
/-- Modelled from the spec: the recursive worker of
gsk_curve_decompose_curve, whose implementation is not among the files.
Like the line decomposition it subdivides depth-first, but a piece whose
operation kind the flags allow (or that passes the flatness test, or that
exhausts the bounded depth) is emitted to the add-curve callback directly;
a false return from the callback stops the traversal and propagates up. -/
noncomputable def gsk_curve_decompose_curve_rec (flags : GskPathForeachFlags)
    (tol : ℝ) (cb : EmittedCurve → Bool) :
    Nat → GskCurve → Bool × List EmittedCurve
  | 0, c => (cb (curve_as_emitted c), [curve_as_emitted c])
  | d + 1, c =>
      if op_allowed flags c = true ∨ flat_enough c tol then
        (cb (curve_as_emitted c), [curve_as_emitted c])
      else
        let L := gsk_curve_decompose_curve_rec flags tol cb d (gsk_curve_split c (1 / 2)).1
        if L.1 then
          let R := gsk_curve_decompose_curve_rec flags tol cb d (gsk_curve_split c (1 / 2)).2
          (R.1, L.2 ++ R.2)
        else (false, L.2)

/-- Modelled from the spec: gsk_curve_decompose_curve, the entry point
running the curve-piece worker over the whole curve with the bounded
depth. -/
noncomputable def gsk_curve_decompose_curve (c : GskCurve)
    (flags : GskPathForeachFlags) (tol : ℝ) (cb : EmittedCurve → Bool) :
    Bool × List EmittedCurve :=
  gsk_curve_decompose_curve_rec flags tol cb gsk_decompose_max_depth c

/-- The raw storage of the conic variant, following struct GskConicCurve
of the header field for field: the operation tag, the coefficient-cache
flag, four stored points of which indices 0, 1 and 3 are the control points
while the x coordinate of index 2 encodes the rational weight (the header
comment), and the cached numerator and denominator coefficient triples. -/
structure GskConicCurve where
  op : GskPathOperation
  has_coefficients : Bool
  points : Fin 4 → GraphenePoint
  num : Fin 3 → GraphenePoint
  denom : Fin 3 → GraphenePoint

/-- The weight of a raw conic, read from the encoded slot: the x coordinate
of the stored point at index 2, as the header comment documents. -/
def gsk_conic_curve_get_weight (c : GskConicCurve) : ℝ :=
  (c.points 2).x

/-- Modelled from the spec: the evaluation of a raw conic, whose
implementation is not among the files. It forms the rational quadratic from
the control points at indices 0, 1 and 3 and the weight read from the
encoded slot (the cache fields hold values derived from these, which the
data-model invariant keeps consistent, so the point evaluation is a
function of the control points and the weight alone). -/
def gsk_conic_curve_get_point (c : GskConicCurve) (t : ℝ) : GraphenePoint :=
  gsk_curve_get_point
    (.conic (c.points 0) (c.points 1) (c.points 3)
      (gsk_conic_curve_get_weight c)) t

/-- Whether a curve value is populated as the cubic variant. -/
def GskCurve.is_cubic : GskCurve → Bool
  | .cubic _ _ _ _ => true
  | _ => false

/-- Whether a curve value is populated as the conic variant. -/
def GskCurve.is_conic : GskCurve → Bool
  | .conic _ _ _ _ => true
  | _ => false

/-- The weight stored by a conic curve value (0 for the other variants). -/
def conic_weight : GskCurve → ℝ
  | .conic _ _ _ w => w
  | _ => 0

/-- A concrete raw conic used to instantiate the weight-encoding theorem:
the unit quarter-circle conic, with empty caches. -/
def conic_raw_a : GskConicCurve where
  op := .conic
  has_coefficients := false
  points := fun i =>
    if i = 0 then ⟨1, 0⟩ else if i = 1 then ⟨1, 1⟩
    else if i = 2 then ⟨1, 0⟩ else ⟨0, 1⟩
  num := fun _ => ⟨0, 0⟩
  denom := fun _ => ⟨0, 0⟩

/-- The same conic with a different y coordinate in the weight slot and
different cache contents: evaluation may not distinguish the two. -/
def conic_raw_b : GskConicCurve where
  op := .conic
  has_coefficients := true
  points := fun i =>
    if i = 0 then ⟨1, 0⟩ else if i = 1 then ⟨1, 1⟩
    else if i = 2 then ⟨1, 7⟩ else ⟨0, 1⟩
  num := fun _ => ⟨3, 3⟩
  denom := fun _ => ⟨2, 2⟩

end

end GskCurveKernel

namespace GtkFontDialogModel

/-- The GtkFontDialog instance state, field for field after struct
_GtkFontDialog of gtkfontdialog.c: the title string, the font chooser level
flags, the language and the fontmap (opaque pointers, compared by identity
exactly as the C code compares them, modelled as optional identifiers), the
modal flag, and the filter function triple. -/
structure GtkFontDialog where
  title : String
  level : Nat
  language : Option Nat
  fontmap : Option Nat
  modal : Bool
  filter : Option Nat
  filter_data : Option Nat
  filter_data_destroy : Option Nat
deriving DecidableEq

/-- The notifiable GObject properties of GtkFontDialog. -/
inductive FontDialogProperty where
  | title
  | modal
  | level
  | language
  | fontmap
deriving DecidableEq

/-- The DEFAULT_LEVEL flag combination of gtkfontdialog.c: family, style and
size. -/
def DEFAULT_LEVEL : Nat := 3

/-- The state gtk_font_dialog_init builds: the translated default title, the
modal flag set, the default level, the default language (an opaque non-null
pointer). -/
def gtk_font_dialog_init : GtkFontDialog where
  title := "Pick a Font"
  level := DEFAULT_LEVEL
  language := some 0
  fontmap := none
  modal := true
  filter := none
  filter_data := none
  filter_data_destroy := none

/-- gtk_font_dialog_set_title of gtkfontdialog.c: if the stored title equals
the new one (g_str_equal, content equality) return with no change and no
notification; otherwise store a copy of the new title and notify the title
property once. The returned list holds the notifications emitted. -/
def gtk_font_dialog_set_title (self : GtkFontDialog) (title : String) :
    GtkFontDialog × List FontDialogProperty :=
  if self.title = title then (self, [])
  else ({ self with title := title }, [FontDialogProperty.title])

/-- gtk_font_dialog_set_modal of gtkfontdialog.c: no change and no
notification when the stored flag already equals the new one, otherwise
store it and notify the modal property once. -/
def gtk_font_dialog_set_modal (self : GtkFontDialog) (modal : Bool) :
    GtkFontDialog × List FontDialogProperty :=
  if self.modal = modal then (self, [])
  else ({ self with modal := modal }, [FontDialogProperty.modal])

/-- gtk_font_dialog_set_level of gtkfontdialog.c: no change and no
notification when the stored level already equals the new one, otherwise
store it and notify the level property once. -/
def gtk_font_dialog_set_level (self : GtkFontDialog) (level : Nat) :
    GtkFontDialog × List FontDialogProperty :=
  if self.level = level then (self, [])
  else ({ self with level := level }, [FontDialogProperty.level])

/-- gtk_font_dialog_set_language of gtkfontdialog.c: the C code compares
the stored PangoLanguage pointer with the new one; no change and no
notification when they are identical, otherwise store the new pointer and
notify the language property once. -/
def gtk_font_dialog_set_language (self : GtkFontDialog)
    (language : Option Nat) : GtkFontDialog × List FontDialogProperty :=
  if self.language = language then (self, [])
  else ({ self with language := language }, [FontDialogProperty.language])

/-- The GtkResponseType value GTK_RESPONSE_OK. -/
def GTK_RESPONSE_OK : Int := -5

/-- The GtkResponseType value GTK_RESPONSE_CANCEL, which the cancelled
signal handler feeds to the response handler. -/
def GTK_RESPONSE_CANCEL : Int := -6

/-- The state of the font chooser dialog window the task data points to:
the font description and font features it would report when accepted
(opaque values). -/
structure GtkFontChooserDialog where
  font_desc : Nat
  font_features : Nat

/-- The FontResult struct of gtkfontdialog.c: the font description and the
font features the response handler packs for the task. -/
structure FontResult where
  font_desc : Nat
  font_features : Nat

/-- The GError domain codes that matter here (G_IO_ERROR_CANCELLED and a
stand-in for any other error). -/
inductive GErrorKind where
  | cancelled
  | other
deriving DecidableEq

/-- How a GTask completes: with a propagated pointer to a FontResult or
with an error. -/
inductive GTaskOutcome where
  | pointer (fr : FontResult)
  | error (e : GErrorKind)

/-- response_cb of gtkfontdialog.c: on GTK_RESPONSE_OK it reads the font
description and the font features from the chooser window and returns them
through the task as a pointer; on every other response it returns a new
G_IO_ERROR_CANCELLED error through the task. -/
def response_cb (window : GtkFontChooserDialog) (response : Int) :
    GTaskOutcome :=
  if response = GTK_RESPONSE_OK then
    .pointer ⟨window.font_desc, window.font_features⟩
  else
    .error .cancelled

/-- cancelled_cb of gtkfontdialog.c: triggered by the GCancellable, it runs
the response handler with GTK_RESPONSE_CANCEL. -/
def cancelled_cb (window : GtkFontChooserDialog) : GTaskOutcome :=
  response_cb window GTK_RESPONSE_CANCEL

/-- The two caller-allocated output locations of choose_font_finish; none
stands for a location the call has not written. -/
structure OutLocations where
  font_desc : Option Nat
  font_features : Option Nat
deriving DecidableEq

/-- gtk_font_dialog_choose_font_finish of gtkfontdialog.c: it propagates
the task pointer; when a FontResult came through it writes both output
locations and returns true with no error, otherwise it returns false, the
propagated error, and leaves the output locations as they were. -/
def gtk_font_dialog_choose_font_finish (result : GTaskOutcome)
    (outs : OutLocations) : Bool × OutLocations × Option GErrorKind :=
  match result with
  | .pointer fr => (true, ⟨some fr.font_desc, some fr.font_features⟩, none)
  | .error e => (false, outs, some e)

end GtkFontDialogModel

namespace GskCurveKernel

noncomputable section

/-- C1: for every curve of any of the four variants, gsk_curve_get_point at
progress 0 is exactly the stored start point and at progress 1 exactly the
stored end point, with no drift from cached coefficients (the model is
exact, so the floating-epsilon allowance of the claim is met with equality). -/
theorem get_point_at_bounds (c : GskCurve) :
    gsk_curve_get_point c 0 = gsk_curve_get_start_point c ∧
    gsk_curve_get_point c 1 = gsk_curve_get_end_point c := by
  cases c <;>
    refine ⟨?_, ?_⟩ <;>
      apply GraphenePoint.ext <;>
        simp [gsk_curve_get_point, gsk_curve_get_start_point,
          gsk_curve_get_end_point, lerp]

/-- Sanity check from the spec scenarios: the line from the origin to
(10, 0) passes through (5, 0) at progress one half. -/
lemma get_point_line_midpoint_check :
    gsk_curve_get_point (GskCurve.line ⟨0, 0⟩ ⟨10, 0⟩) (1 / 2) = ⟨5, 0⟩ := by
  apply GraphenePoint.ext <;> simp [gsk_curve_get_point, lerp] <;> norm_num

/-- Sanity check from the spec scenarios: the quadratic with control points
(0,0), (5,10), (10,0) passes through (5, 5) at progress one half. -/
lemma get_point_quad_midpoint_check :
    gsk_curve_get_point (GskCurve.quad ⟨0, 0⟩ ⟨5, 10⟩ ⟨10, 0⟩) (1 / 2)
      = ⟨5, 5⟩ := by
  apply GraphenePoint.ext <;> simp [gsk_curve_get_point] <;> norm_num

/-- Sanity check from the spec scenarios: the conic with endpoints (1,0)
and (0,1), control point (1,1) and the standard quarter-circle weight (half
the square root of two) passes through a point at distance 1 from the
origin at progress one half. -/
lemma get_point_conic_quarter_circle_check :
    (gsk_curve_get_point
        (GskCurve.conic ⟨1, 0⟩ ⟨1, 1⟩ ⟨0, 1⟩ (Real.sqrt 2 / 2)) (1 / 2)).x ^ 2
      + (gsk_curve_get_point
        (GskCurve.conic ⟨1, 0⟩ ⟨1, 1⟩ ⟨0, 1⟩ (Real.sqrt 2 / 2)) (1 / 2)).y ^ 2
      = 1 := by
  have h2 : Real.sqrt 2 ^ 2 = 2 := Real.sq_sqrt (by norm_num)
  have hpos : (0:ℝ) < Real.sqrt 2 := Real.sqrt_pos.mpr (by norm_num)
  have hd : (1 / 4 + 1 / 2 * (Real.sqrt 2 / 2) + 1 / 4 : ℝ) ≠ 0 := by
    positivity
  simp only [gsk_curve_get_point]
  norm_num
  field_simp
  ring_nf
  nlinarith [h2, hpos]

/-- Sanity check from the spec scenarios: decomposing a line emits exactly
one line, with the straight reason code, spanning the whole progress
range. -/
lemma decompose_line_single_check (tol : ℝ) (cb : EmittedLine → Bool)
    (p0 p1 : GraphenePoint) :
    (gsk_curve_decompose (GskCurve.line p0 p1) tol cb).2 =
      [⟨p0, p1, 0, 1, GskCurveLineReason.straight⟩] := by
  show (gsk_curve_decompose_rec tol cb (15 + 1) (GskCurve.line p0 p1) 0 1).2
    = _
  simp [gsk_curve_decompose_rec, flat_enough, leaf_line, reason_of,
    gsk_curve_get_start_point, gsk_curve_get_end_point]

/-- A strictly positive convex combination of two strictly positive reals. -/
lemma convex_pos (a b t : ℝ) (ha : 0 < a) (hb : 0 < b) (h0 : 0 ≤ t)
    (h1 : t ≤ 1) : 0 < (1 - t) * a + t * b := by
  rcases eq_or_lt_of_le h1 with h | h
  · subst h; simpa using hb
  · have hs : 0 < 1 - t := by linarith
    have h2 : 0 < (1 - t) * a := mul_pos hs ha
    have h3 : 0 ≤ t * b := mul_nonneg h0 hb.le
    linarith

/-- C2: gsk_curve_split at progress t yields a first curve spanning the part
of the parametrization up to t and a second curve spanning the part from t
on, each re-parametrized to the unit interval: the first half starts at the
point of the original at 0 and ends at the point of the original at t, where
the second half starts, and the second half ends at the point of the
original at 1 (the model is exact, so the approximate equalities of the
claim are met with equality). -/
theorem gsk_curve_split_roundtrip (c : GskCurve) (t : ℝ) (h0 : 0 ≤ t)
    (h1 : t ≤ 1) :
    gsk_curve_get_point (gsk_curve_split c t).1 0 = gsk_curve_get_point c 0 ∧
    gsk_curve_get_point (gsk_curve_split c t).1 1 = gsk_curve_get_point c t ∧
    gsk_curve_get_point (gsk_curve_split c t).2 0 = gsk_curve_get_point c t ∧
    gsk_curve_get_point (gsk_curve_split c t).2 1 = gsk_curve_get_point c 1 := by
  cases c with
  | line p0 p1 =>
      refine ⟨?_, ?_, ?_, ?_⟩ <;>
        apply GraphenePoint.ext <;>
          simp [gsk_curve_split, gsk_curve_get_point, lerp] <;> ring
  | quad p0 p1 p2 =>
      refine ⟨?_, ?_, ?_, ?_⟩ <;>
        apply GraphenePoint.ext <;>
          simp [gsk_curve_split, gsk_curve_get_point, lerp] <;> ring
  | cubic p0 p1 p2 p3 =>
      refine ⟨?_, ?_, ?_, ?_⟩ <;>
        apply GraphenePoint.ext <;>
          simp [gsk_curve_split, gsk_curve_get_point, lerp] <;> ring
  | conic p0 p1 p2 w =>
      refine ⟨?_, ?_, ?_, ?_⟩ <;>
        apply GraphenePoint.ext <;>
          simp [gsk_curve_split, gsk_curve_get_point, lerp, project, hlerp,
            homog] <;>
            congr 1 <;> ring

/-- C2 witness: the split round-trip applied to a concrete cubic at the
concrete progress one half. -/
theorem gsk_curve_split_roundtrip_witness :
    (0:ℝ) ≤ 1 / 2 ∧ (1:ℝ) / 2 ≤ 1 ∧
    (gsk_curve_get_point
        (gsk_curve_split (GskCurve.cubic ⟨0, 0⟩ ⟨1, 2⟩ ⟨3, 4⟩ ⟨5, 0⟩) (1 / 2)).1 1 =
      gsk_curve_get_point (GskCurve.cubic ⟨0, 0⟩ ⟨1, 2⟩ ⟨3, 4⟩ ⟨5, 0⟩) (1 / 2)) :=
  ⟨by norm_num, by norm_num,
    (gsk_curve_split_roundtrip (GskCurve.cubic ⟨0, 0⟩ ⟨1, 2⟩ ⟨3, 4⟩ ⟨5, 0⟩)
      (1 / 2) (by norm_num) (by norm_num)).2.1⟩

/-- C3: splitting preserves the variant. Both halves of a split cubic are
cubics, every sub-curve gsk_curve_segment extracts from a cubic is a cubic,
and both halves of a split conic with positive weight are conics whose
recomputed weights are again positive (in the real-number model every value
is finite, so positivity is the whole finite-and-positive condition). -/
theorem gsk_curve_split_preserves_variant :
    (∀ p0 p1 p2 p3 : GraphenePoint, ∀ t : ℝ,
        ((gsk_curve_split (.cubic p0 p1 p2 p3) t).1).is_cubic = true ∧
        ((gsk_curve_split (.cubic p0 p1 p2 p3) t).2).is_cubic = true) ∧
    (∀ p0 p1 p2 p3 : GraphenePoint, ∀ s e : ℝ,
        (gsk_curve_segment (.cubic p0 p1 p2 p3) s e).is_cubic = true) ∧
    (∀ p0 p1 p2 : GraphenePoint, ∀ w t : ℝ, 0 < w → 0 ≤ t → t ≤ 1 →
        ((gsk_curve_split (.conic p0 p1 p2 w) t).1).is_conic = true ∧
        ((gsk_curve_split (.conic p0 p1 p2 w) t).2).is_conic = true ∧
        0 < conic_weight (gsk_curve_split (.conic p0 p1 p2 w) t).1 ∧
        0 < conic_weight (gsk_curve_split (.conic p0 p1 p2 w) t).2) := by
  refine ⟨fun p0 p1 p2 p3 t => ⟨rfl, rfl⟩, fun p0 p1 p2 p3 s e => rfl, ?_⟩
  intro p0 p1 p2 w t hw h0 h1
  have hl : 0 < (1 - t) * 1 + t * w := convex_pos 1 w t one_pos hw h0 h1
  have hr : 0 < (1 - t) * w + t * 1 := convex_pos w 1 t hw one_pos h0 h1
  have hm : 0 < (1 - t) * ((1 - t) * 1 + t * w) + t * ((1 - t) * w + t * 1) :=
    convex_pos _ _ t hl hr h0 h1
  refine ⟨rfl, rfl, ?_, ?_⟩ <;>
    · simp only [gsk_curve_split, conic_weight, hlerp, homog]
      exact div_pos (by assumption) (Real.sqrt_pos.mpr hm)

/-- The smallest of four reals is below each of them. -/
lemma min4_le (a b c d : ℝ) :
    min4 a b c d ≤ a ∧ min4 a b c d ≤ b ∧ min4 a b c d ≤ c ∧
    min4 a b c d ≤ d :=
  ⟨(min_le_left _ _).trans (min_le_left _ _),
   (min_le_left _ _).trans (min_le_right _ _),
   (min_le_right _ _).trans (min_le_left _ _),
   (min_le_right _ _).trans (min_le_right _ _)⟩

/-- The largest of four reals is above each of them. -/
lemma le_max4 (a b c d : ℝ) :
    a ≤ max4 a b c d ∧ b ≤ max4 a b c d ∧ c ≤ max4 a b c d ∧
    d ≤ max4 a b c d :=
  ⟨(le_max_left _ _).trans (le_max_left _ _),
   (le_max_right _ _).trans (le_max_left _ _),
   (le_max_left _ _).trans (le_max_right _ _),
   (le_max_right _ _).trans (le_max_right _ _)⟩

/-- The rational quadratic denominator is positive on the unit interval for
a positive weight. -/
lemma conic_denom_pos (w t : ℝ) (hw : 0 < w) (h0 : 0 ≤ t) (h1 : t ≤ 1) :
    0 < (1 - t) ^ 2 + 2 * (1 - t) * t * w + t ^ 2 := by
  have hs : (0:ℝ) ≤ 1 - t := by linarith
  nlinarith [sq_nonneg (1 - 2 * t),
    mul_nonneg (mul_nonneg (mul_nonneg (by norm_num : (0:ℝ) ≤ 2) hs) h0) hw.le]

/-- C7: the axis-aligned box gsk_curve_get_bounds returns (the bounding box
of the control points, hence of their convex hull) contains the point the
curve passes through at every progress of the unit interval, for every valid
curve of any variant. -/
theorem gsk_curve_get_bounds_contains (c : GskCurve) (t : ℝ) (h0 : 0 ≤ t)
    (h1 : t ≤ 1) (hv : curve_valid c) :
    (gsk_curve_get_bounds c).contains (gsk_curve_get_point c t) := by
  have hs : (0:ℝ) ≤ 1 - t := by linarith
  cases c with
  | line p0 p1 =>
      refine ⟨?_, ?_, ?_, ?_⟩ <;>
        simp only [gsk_curve_get_point, gsk_curve_get_bounds, lerp]
      · nlinarith [mul_le_mul_of_nonneg_left (min4_le p0.x p1.x p0.x p1.x).1 hs,
          mul_le_mul_of_nonneg_left (min4_le p0.x p1.x p0.x p1.x).2.1 h0]
      · nlinarith [mul_le_mul_of_nonneg_left (le_max4 p0.x p1.x p0.x p1.x).1 hs,
          mul_le_mul_of_nonneg_left (le_max4 p0.x p1.x p0.x p1.x).2.1 h0]
      · nlinarith [mul_le_mul_of_nonneg_left (min4_le p0.y p1.y p0.y p1.y).1 hs,
          mul_le_mul_of_nonneg_left (min4_le p0.y p1.y p0.y p1.y).2.1 h0]
      · nlinarith [mul_le_mul_of_nonneg_left (le_max4 p0.y p1.y p0.y p1.y).1 hs,
          mul_le_mul_of_nonneg_left (le_max4 p0.y p1.y p0.y p1.y).2.1 h0]
  | quad p0 p1 p2 =>
      have hb0 : (0:ℝ) ≤ (1 - t) ^ 2 := sq_nonneg _
      have hb1 : (0:ℝ) ≤ 2 * (1 - t) * t :=
        mul_nonneg (mul_nonneg (by norm_num) hs) h0
      have hb2 : (0:ℝ) ≤ t ^ 2 := sq_nonneg _
      refine ⟨?_, ?_, ?_, ?_⟩ <;>
        simp only [gsk_curve_get_point, gsk_curve_get_bounds]
      · nlinarith [mul_le_mul_of_nonneg_left (min4_le p0.x p1.x p2.x p2.x).1 hb0,
          mul_le_mul_of_nonneg_left (min4_le p0.x p1.x p2.x p2.x).2.1 hb1,
          mul_le_mul_of_nonneg_left (min4_le p0.x p1.x p2.x p2.x).2.2.1 hb2]
      · nlinarith [mul_le_mul_of_nonneg_left (le_max4 p0.x p1.x p2.x p2.x).1 hb0,
          mul_le_mul_of_nonneg_left (le_max4 p0.x p1.x p2.x p2.x).2.1 hb1,
          mul_le_mul_of_nonneg_left (le_max4 p0.x p1.x p2.x p2.x).2.2.1 hb2]
      · nlinarith [mul_le_mul_of_nonneg_left (min4_le p0.y p1.y p2.y p2.y).1 hb0,
          mul_le_mul_of_nonneg_left (min4_le p0.y p1.y p2.y p2.y).2.1 hb1,
          mul_le_mul_of_nonneg_left (min4_le p0.y p1.y p2.y p2.y).2.2.1 hb2]
      · nlinarith [mul_le_mul_of_nonneg_left (le_max4 p0.y p1.y p2.y p2.y).1 hb0,
          mul_le_mul_of_nonneg_left (le_max4 p0.y p1.y p2.y p2.y).2.1 hb1,
          mul_le_mul_of_nonneg_left (le_max4 p0.y p1.y p2.y p2.y).2.2.1 hb2]
  | cubic p0 p1 p2 p3 =>
      have hb0 : (0:ℝ) ≤ (1 - t) ^ 3 := pow_nonneg hs 3
      have hb1 : (0:ℝ) ≤ 3 * (1 - t) ^ 2 * t :=
        mul_nonneg (mul_nonneg (by norm_num) (sq_nonneg _)) h0
      have hb2 : (0:ℝ) ≤ 3 * (1 - t) * t ^ 2 :=
        mul_nonneg (mul_nonneg (by norm_num) hs) (sq_nonneg _)
      have hb3 : (0:ℝ) ≤ t ^ 3 := pow_nonneg h0 3
      refine ⟨?_, ?_, ?_, ?_⟩ <;>
        simp only [gsk_curve_get_point, gsk_curve_get_bounds]
      · nlinarith [mul_le_mul_of_nonneg_left (min4_le p0.x p1.x p2.x p3.x).1 hb0,
          mul_le_mul_of_nonneg_left (min4_le p0.x p1.x p2.x p3.x).2.1 hb1,
          mul_le_mul_of_nonneg_left (min4_le p0.x p1.x p2.x p3.x).2.2.1 hb2,
          mul_le_mul_of_nonneg_left (min4_le p0.x p1.x p2.x p3.x).2.2.2 hb3]
      · nlinarith [mul_le_mul_of_nonneg_left (le_max4 p0.x p1.x p2.x p3.x).1 hb0,
          mul_le_mul_of_nonneg_left (le_max4 p0.x p1.x p2.x p3.x).2.1 hb1,
          mul_le_mul_of_nonneg_left (le_max4 p0.x p1.x p2.x p3.x).2.2.1 hb2,
          mul_le_mul_of_nonneg_left (le_max4 p0.x p1.x p2.x p3.x).2.2.2 hb3]
      · nlinarith [mul_le_mul_of_nonneg_left (min4_le p0.y p1.y p2.y p3.y).1 hb0,
          mul_le_mul_of_nonneg_left (min4_le p0.y p1.y p2.y p3.y).2.1 hb1,
          mul_le_mul_of_nonneg_left (min4_le p0.y p1.y p2.y p3.y).2.2.1 hb2,
          mul_le_mul_of_nonneg_left (min4_le p0.y p1.y p2.y p3.y).2.2.2 hb3]
      · nlinarith [mul_le_mul_of_nonneg_left (le_max4 p0.y p1.y p2.y p3.y).1 hb0,
          mul_le_mul_of_nonneg_left (le_max4 p0.y p1.y p2.y p3.y).2.1 hb1,
          mul_le_mul_of_nonneg_left (le_max4 p0.y p1.y p2.y p3.y).2.2.1 hb2,
          mul_le_mul_of_nonneg_left (le_max4 p0.y p1.y p2.y p3.y).2.2.2 hb3]
  | conic p0 p1 p2 w =>
      have hw : 0 < w := hv
      have hd := conic_denom_pos w t hw h0 h1
      have hb0 : (0:ℝ) ≤ (1 - t) ^ 2 := sq_nonneg _
      have hb1 : (0:ℝ) ≤ 2 * (1 - t) * t * w :=
        mul_nonneg (mul_nonneg (mul_nonneg (by norm_num) hs) h0) hw.le
      have hb2 : (0:ℝ) ≤ t ^ 2 := sq_nonneg _
      refine ⟨?_, ?_, ?_, ?_⟩ <;>
        simp only [gsk_curve_get_point, gsk_curve_get_bounds]
      · rw [le_div_iff hd]
        nlinarith [mul_le_mul_of_nonneg_left (min4_le p0.x p1.x p2.x p2.x).1 hb0,
          mul_le_mul_of_nonneg_left (min4_le p0.x p1.x p2.x p2.x).2.1 hb1,
          mul_le_mul_of_nonneg_left (min4_le p0.x p1.x p2.x p2.x).2.2.1 hb2]
      · rw [div_le_iff hd]
        nlinarith [mul_le_mul_of_nonneg_left (le_max4 p0.x p1.x p2.x p2.x).1 hb0,
          mul_le_mul_of_nonneg_left (le_max4 p0.x p1.x p2.x p2.x).2.1 hb1,
          mul_le_mul_of_nonneg_left (le_max4 p0.x p1.x p2.x p2.x).2.2.1 hb2]
      · rw [le_div_iff hd]
        nlinarith [mul_le_mul_of_nonneg_left (min4_le p0.y p1.y p2.y p2.y).1 hb0,
          mul_le_mul_of_nonneg_left (min4_le p0.y p1.y p2.y p2.y).2.1 hb1,
          mul_le_mul_of_nonneg_left (min4_le p0.y p1.y p2.y p2.y).2.2.1 hb2]
      · rw [div_le_iff hd]
        nlinarith [mul_le_mul_of_nonneg_left (le_max4 p0.y p1.y p2.y p2.y).1 hb0,
          mul_le_mul_of_nonneg_left (le_max4 p0.y p1.y p2.y p2.y).2.1 hb1,
          mul_le_mul_of_nonneg_left (le_max4 p0.y p1.y p2.y p2.y).2.2.1 hb2]

/-- C7 witness: the bounds containment applied to a concrete line at the
concrete progress one half. -/
theorem gsk_curve_get_bounds_contains_witness :
    (0:ℝ) ≤ 1 / 2 ∧ (1:ℝ) / 2 ≤ 1 ∧
    curve_valid (GskCurve.line ⟨0, 0⟩ ⟨10, 0⟩) ∧
    (gsk_curve_get_bounds (GskCurve.line ⟨0, 0⟩ ⟨10, 0⟩)).contains
      (gsk_curve_get_point (GskCurve.line ⟨0, 0⟩ ⟨10, 0⟩) (1 / 2)) :=
  ⟨by norm_num, by norm_num, trivial,
    gsk_curve_get_bounds_contains (GskCurve.line ⟨0, 0⟩ ⟨10, 0⟩) (1 / 2)
      (by norm_num) (by norm_num) trivial⟩

/-- C4: the intersection results of two curves are order-independent: a
matched triple of the two parameters and the intersection point belongs to
the results for the pair in one order exactly when the triple with the
parameter roles swapped belongs to the results for the pair in the other
order. -/
theorem gsk_curve_intersect_symmetric (c1 c2 : GskCurve) (t1 t2 : ℝ)
    (p : GraphenePoint) :
    (t1, t2, p) ∈ gsk_curve_intersect_results c1 c2 ↔
    (t2, t1, p) ∈ gsk_curve_intersect_results c2 c1 := by
  constructor <;> rintro ⟨ha, hb, h1, h2⟩ <;> exact ⟨hb, ha, h2, h1⟩

/-- The invariant of the recursive line decomposition: the invocation list
is never empty, the returned boolean is the conjunction of the callback
answers over the list, and every invocation but possibly the last answered
true (the traversal stops at the first false). -/
lemma gsk_curve_decompose_rec_spec (tol : ℝ) (cb : EmittedLine → Bool) :
    ∀ (d : Nat) (c : GskCurve) (t0 t1 : ℝ),
      (gsk_curve_decompose_rec tol cb d c t0 t1).2 ≠ [] ∧
      (gsk_curve_decompose_rec tol cb d c t0 t1).1 =
        (gsk_curve_decompose_rec tol cb d c t0 t1).2.all cb ∧
      (gsk_curve_decompose_rec tol cb d c t0 t1).2.dropLast.all cb = true := by
  intro d
  induction d with
  | zero =>
      intro c t0 t1
      simp [gsk_curve_decompose_rec]
  | succ d ih =>
      intro c t0 t1
      by_cases hf : flat_enough c tol
      · simp [gsk_curve_decompose_rec, hf]
      · have hL := ih (gsk_curve_split c (1 / 2)).1 t0 ((t0 + t1) / 2)
        have hR := ih (gsk_curve_split c (1 / 2)).2 ((t0 + t1) / 2) t1
        simp only [gsk_curve_decompose_rec, if_neg hf]
        rcases e1 : gsk_curve_decompose_rec tol cb d
            (gsk_curve_split c (1 / 2)).1 t0 ((t0 + t1) / 2) with ⟨okL, lsL⟩
        rcases e2 : gsk_curve_decompose_rec tol cb d
            (gsk_curve_split c (1 / 2)).2 ((t0 + t1) / 2) t1 with ⟨okR, lsR⟩
        rw [e1] at hL
        rw [e2] at hR
        obtain ⟨hne1, hall1, hdrop1⟩ := hL
        obtain ⟨hne2, hall2, hdrop2⟩ := hR
        simp only at hne1 hall1 hdrop1 hne2 hall2 hdrop2
        cases okL with
        | false =>
            simp only [Bool.false_eq_true, if_false]
            exact ⟨hne1, hall1, hdrop1⟩
        | true =>
            simp only [if_true]
            refine ⟨by simp [hne1], ?_, ?_⟩
            · simp [List.all_append, ← hall1, hall2]
            · rw [List.dropLast_append_of_ne_nil _ hne2]
              simp [List.all_append, ← hall1, hdrop2]

/-- The same invariant for the recursive curve-piece decomposition. -/
lemma gsk_curve_decompose_curve_rec_spec (flags : GskPathForeachFlags)
    (tol : ℝ) (cb : EmittedCurve → Bool) :
    ∀ (d : Nat) (c : GskCurve),
      (gsk_curve_decompose_curve_rec flags tol cb d c).2 ≠ [] ∧
      (gsk_curve_decompose_curve_rec flags tol cb d c).1 =
        (gsk_curve_decompose_curve_rec flags tol cb d c).2.all cb ∧
      (gsk_curve_decompose_curve_rec flags tol cb d c).2.dropLast.all cb
        = true := by
  intro d
  induction d with
  | zero =>
      intro c
      simp [gsk_curve_decompose_curve_rec]
  | succ d ih =>
      intro c
      by_cases hf : op_allowed flags c = true ∨ flat_enough c tol
      · simp [gsk_curve_decompose_curve_rec, hf]
      · have hL := ih (gsk_curve_split c (1 / 2)).1
        have hR := ih (gsk_curve_split c (1 / 2)).2
        simp only [gsk_curve_decompose_curve_rec, if_neg hf]
        rcases e1 : gsk_curve_decompose_curve_rec flags tol cb d
            (gsk_curve_split c (1 / 2)).1 with ⟨okL, lsL⟩
        rcases e2 : gsk_curve_decompose_curve_rec flags tol cb d
            (gsk_curve_split c (1 / 2)).2 with ⟨okR, lsR⟩
        rw [e1] at hL
        rw [e2] at hR
        obtain ⟨hne1, hall1, hdrop1⟩ := hL
        obtain ⟨hne2, hall2, hdrop2⟩ := hR
        simp only at hne1 hall1 hdrop1 hne2 hall2 hdrop2
        cases okL with
        | false =>
            simp only [Bool.false_eq_true, if_false]
            exact ⟨hne1, hall1, hdrop1⟩
        | true =>
            simp only [if_true]
            refine ⟨by simp [hne1], ?_, ?_⟩
            · simp [List.all_append, ← hall1, hall2]
            · rw [List.dropLast_append_of_ne_nil _ hne2]
              simp [List.all_append, ← hall1, hdrop2]

/-- C5: for every curve, tolerance and callback, gsk_curve_decompose (and
likewise gsk_curve_decompose_curve) returns true exactly when every
callback invocation it made returned true, and every invocation before the
last one returned true, so a false answer halts the traversal immediately
with no further invocations and the false is propagated to the caller. -/
theorem gsk_curve_decompose_callback_abort (c : GskCurve) (tol : ℝ)
    (cb : EmittedLine → Bool) (flags : GskPathForeachFlags)
    (cb2 : EmittedCurve → Bool) :
    ((gsk_curve_decompose c tol cb).1 =
        (gsk_curve_decompose c tol cb).2.all cb ∧
      (gsk_curve_decompose c tol cb).2.dropLast.all cb = true) ∧
    ((gsk_curve_decompose_curve c flags tol cb2).1 =
        (gsk_curve_decompose_curve c flags tol cb2).2.all cb2 ∧
      (gsk_curve_decompose_curve c flags tol cb2).2.dropLast.all cb2
        = true) :=
  ⟨⟨(gsk_curve_decompose_rec_spec tol cb gsk_decompose_max_depth c 0 1).2.1,
    (gsk_curve_decompose_rec_spec tol cb gsk_decompose_max_depth c 0 1).2.2⟩,
   ⟨(gsk_curve_decompose_curve_rec_spec flags tol cb2
        gsk_decompose_max_depth c).2.1,
    (gsk_curve_decompose_curve_rec_spec flags tol cb2
        gsk_decompose_max_depth c).2.2⟩⟩

/-- The invocation list of the recursive line decomposition at fuel d holds
at most 2 ^ d lines. -/
lemma gsk_curve_decompose_rec_length (tol : ℝ) (cb : EmittedLine → Bool) :
    ∀ (d : Nat) (c : GskCurve) (t0 t1 : ℝ),
      (gsk_curve_decompose_rec tol cb d c t0 t1).2.length ≤ 2 ^ d := by
  intro d
  induction d with
  | zero =>
      intro c t0 t1
      simp [gsk_curve_decompose_rec]
  | succ d ih =>
      intro c t0 t1
      by_cases hf : flat_enough c tol
      · simpa [gsk_curve_decompose_rec, hf] using Nat.one_le_two_pow
      · have hL := ih (gsk_curve_split c (1 / 2)).1 t0 ((t0 + t1) / 2)
        have hR := ih (gsk_curve_split c (1 / 2)).2 ((t0 + t1) / 2) t1
        simp only [gsk_curve_decompose_rec, if_neg hf]
        rcases e1 : gsk_curve_decompose_rec tol cb d
            (gsk_curve_split c (1 / 2)).1 t0 ((t0 + t1) / 2) with ⟨okL, lsL⟩
        rcases e2 : gsk_curve_decompose_rec tol cb d
            (gsk_curve_split c (1 / 2)).2 ((t0 + t1) / 2) t1 with ⟨okR, lsR⟩
        rw [e1] at hL
        rw [e2] at hR
        simp only at hL hR
        cases okL with
        | false =>
            simp only [Bool.false_eq_true, if_false]
            calc lsL.length ≤ 2 ^ d := hL
              _ ≤ 2 ^ (d + 1) := Nat.pow_le_pow_right (by norm_num) (by omega)
        | true =>
            simp only [if_true, List.length_append]
            calc lsL.length + lsR.length ≤ 2 ^ d + 2 ^ d :=
                Nat.add_le_add hL hR
              _ = 2 ^ (d + 1) := by ring

/-- The invocation list of the recursive curve-piece decomposition at fuel d
holds at most 2 ^ d pieces. -/
lemma gsk_curve_decompose_curve_rec_length (flags : GskPathForeachFlags)
    (tol : ℝ) (cb : EmittedCurve → Bool) :
    ∀ (d : Nat) (c : GskCurve),
      (gsk_curve_decompose_curve_rec flags tol cb d c).2.length ≤ 2 ^ d := by
  intro d
  induction d with
  | zero =>
      intro c
      simp [gsk_curve_decompose_curve_rec]
  | succ d ih =>
      intro c
      by_cases hf : op_allowed flags c = true ∨ flat_enough c tol
      · simpa [gsk_curve_decompose_curve_rec, hf] using Nat.one_le_two_pow
      · have hL := ih (gsk_curve_split c (1 / 2)).1
        have hR := ih (gsk_curve_split c (1 / 2)).2
        simp only [gsk_curve_decompose_curve_rec, if_neg hf]
        rcases e1 : gsk_curve_decompose_curve_rec flags tol cb d
            (gsk_curve_split c (1 / 2)).1 with ⟨okL, lsL⟩
        rcases e2 : gsk_curve_decompose_curve_rec flags tol cb d
            (gsk_curve_split c (1 / 2)).2 with ⟨okR, lsR⟩
        rw [e1] at hL
        rw [e2] at hR
        simp only at hL hR
        cases okL with
        | false =>
            simp only [Bool.false_eq_true, if_false]
            calc lsL.length ≤ 2 ^ d := hL
              _ ≤ 2 ^ (d + 1) := Nat.pow_le_pow_right (by norm_num) (by omega)
        | true =>
            simp only [if_true, List.length_append]
            calc lsL.length + lsR.length ≤ 2 ^ d + 2 ^ d :=
                Nat.add_le_add hL hR
              _ = 2 ^ (d + 1) := by ring

/-- C6: gsk_curve_decompose (and gsk_curve_decompose_curve) is a total
function that terminates for every curve, tolerance and callback, after at
most 2 raised to the bounded recursion depth callback invocations: the
tolerance-driven recursion is bounded for all inputs, pathological ones
included. -/
theorem gsk_curve_decompose_terminates (c : GskCurve) (tol : ℝ)
    (cb : EmittedLine → Bool) (flags : GskPathForeachFlags)
    (cb2 : EmittedCurve → Bool) :
    (gsk_curve_decompose c tol cb).2.length ≤ 2 ^ gsk_decompose_max_depth ∧
    (gsk_curve_decompose_curve c flags tol cb2).2.length ≤
      2 ^ gsk_decompose_max_depth :=
  ⟨gsk_curve_decompose_rec_length tol cb gsk_decompose_max_depth c 0 1,
   gsk_curve_decompose_curve_rec_length flags tol cb2
     gsk_decompose_max_depth c⟩

/-- C8: the conic variant stores four points of which indices 0, 1 and 3
are the control points while the x coordinate of index 2 encodes the
rational weight, next to the optional cached numerator and denominator
coefficient triples; the weight accessor reads exactly that slot, and the
evaluation of a conic depends only on the three control points and the
encoded weight: two raw conics agreeing there evaluate identically at every
progress, whatever their cache fields and the unused y coordinate of the
weight slot hold. -/
theorem gsk_conic_curve_weight_encoding (c c' : GskConicCurve) (t : ℝ)
    (h0 : c.points 0 = c'.points 0) (h1 : c.points 1 = c'.points 1)
    (h3 : c.points 3 = c'.points 3)
    (hw : (c.points 2).x = (c'.points 2).x) :
    gsk_conic_curve_get_weight c = (c.points 2).x ∧
    gsk_conic_curve_get_point c t = gsk_conic_curve_get_point c' t := by
  refine ⟨rfl, ?_⟩
  simp only [gsk_conic_curve_get_point, gsk_conic_curve_get_weight, h0, h1,
    h3, hw]

/-- C8 witness: the weight-encoding theorem applied to the two concrete raw
conics that differ only in the cache fields and in the unused y coordinate
of the weight slot. -/
theorem gsk_conic_curve_weight_encoding_witness :
    conic_raw_a.points 0 = conic_raw_b.points 0 ∧
    conic_raw_a.points 1 = conic_raw_b.points 1 ∧
    conic_raw_a.points 3 = conic_raw_b.points 3 ∧
    (conic_raw_a.points 2).x = (conic_raw_b.points 2).x ∧
    gsk_conic_curve_get_point conic_raw_a (1 / 2) =
      gsk_conic_curve_get_point conic_raw_b (1 / 2) :=
  ⟨rfl, rfl, rfl, rfl,
    (gsk_conic_curve_weight_encoding conic_raw_a conic_raw_b (1 / 2)
      rfl rfl rfl rfl).2⟩

/-- C3 witness: variant preservation applied to a concrete cubic and a
concrete unit-weight conic at the concrete progress one half. -/
theorem gsk_curve_split_preserves_variant_witness :
    (0:ℝ) < 1 ∧ (0:ℝ) ≤ 1 / 2 ∧ (1:ℝ) / 2 ≤ 1 ∧
    ((gsk_curve_split (GskCurve.cubic ⟨0, 0⟩ ⟨1, 2⟩ ⟨3, 4⟩ ⟨5, 0⟩) (1 / 2)).1).is_cubic
        = true ∧
    0 < conic_weight
        (gsk_curve_split (GskCurve.conic ⟨0, 0⟩ ⟨1, 1⟩ ⟨2, 0⟩ 1) (1 / 2)).1 :=
  ⟨one_pos, by norm_num, by norm_num,
    (gsk_curve_split_preserves_variant.1 ⟨0, 0⟩ ⟨1, 2⟩ ⟨3, 4⟩ ⟨5, 0⟩ (1 / 2)).1,
    (gsk_curve_split_preserves_variant.2.2 ⟨0, 0⟩ ⟨1, 1⟩ ⟨2, 0⟩ 1 (1 / 2)
      one_pos (by norm_num) (by norm_num)).2.2.1⟩

end

end GskCurveKernel

namespace GtkFontDialogModel

/-- C9: each property setter of GtkFontDialog leaves every field other than
its own unchanged; called with a value equal to the stored one it returns
the object unchanged and emits no notification, and called with a different
value it stores that value and emits exactly one notification, for its own
property. -/
theorem gtk_font_dialog_setters :
    (∀ (d : GtkFontDialog) (t : String),
      ((gtk_font_dialog_set_title d t).1.modal = d.modal ∧
       (gtk_font_dialog_set_title d t).1.level = d.level ∧
       (gtk_font_dialog_set_title d t).1.language = d.language ∧
       (gtk_font_dialog_set_title d t).1.fontmap = d.fontmap ∧
       (gtk_font_dialog_set_title d t).1.filter = d.filter ∧
       (gtk_font_dialog_set_title d t).1.filter_data = d.filter_data ∧
       (gtk_font_dialog_set_title d t).1.filter_data_destroy
         = d.filter_data_destroy) ∧
      (d.title = t → gtk_font_dialog_set_title d t = (d, [])) ∧
      (d.title ≠ t → (gtk_font_dialog_set_title d t).1.title = t ∧
        (gtk_font_dialog_set_title d t).2 = [FontDialogProperty.title])) ∧
    (∀ (d : GtkFontDialog) (m : Bool),
      ((gtk_font_dialog_set_modal d m).1.title = d.title ∧
       (gtk_font_dialog_set_modal d m).1.level = d.level ∧
       (gtk_font_dialog_set_modal d m).1.language = d.language ∧
       (gtk_font_dialog_set_modal d m).1.fontmap = d.fontmap ∧
       (gtk_font_dialog_set_modal d m).1.filter = d.filter ∧
       (gtk_font_dialog_set_modal d m).1.filter_data = d.filter_data ∧
       (gtk_font_dialog_set_modal d m).1.filter_data_destroy
         = d.filter_data_destroy) ∧
      (d.modal = m → gtk_font_dialog_set_modal d m = (d, [])) ∧
      (d.modal ≠ m → (gtk_font_dialog_set_modal d m).1.modal = m ∧
        (gtk_font_dialog_set_modal d m).2 = [FontDialogProperty.modal])) ∧
    (∀ (d : GtkFontDialog) (l : Nat),
      ((gtk_font_dialog_set_level d l).1.title = d.title ∧
       (gtk_font_dialog_set_level d l).1.modal = d.modal ∧
       (gtk_font_dialog_set_level d l).1.language = d.language ∧
       (gtk_font_dialog_set_level d l).1.fontmap = d.fontmap ∧
       (gtk_font_dialog_set_level d l).1.filter = d.filter ∧
       (gtk_font_dialog_set_level d l).1.filter_data = d.filter_data ∧
       (gtk_font_dialog_set_level d l).1.filter_data_destroy
         = d.filter_data_destroy) ∧
      (d.level = l → gtk_font_dialog_set_level d l = (d, [])) ∧
      (d.level ≠ l → (gtk_font_dialog_set_level d l).1.level = l ∧
        (gtk_font_dialog_set_level d l).2 = [FontDialogProperty.level])) ∧
    (∀ (d : GtkFontDialog) (g : Option Nat),
      ((gtk_font_dialog_set_language d g).1.title = d.title ∧
       (gtk_font_dialog_set_language d g).1.modal = d.modal ∧
       (gtk_font_dialog_set_language d g).1.level = d.level ∧
       (gtk_font_dialog_set_language d g).1.fontmap = d.fontmap ∧
       (gtk_font_dialog_set_language d g).1.filter = d.filter ∧
       (gtk_font_dialog_set_language d g).1.filter_data = d.filter_data ∧
       (gtk_font_dialog_set_language d g).1.filter_data_destroy
         = d.filter_data_destroy) ∧
      (d.language = g → gtk_font_dialog_set_language d g = (d, [])) ∧
      (d.language ≠ g → (gtk_font_dialog_set_language d g).1.language = g ∧
        (gtk_font_dialog_set_language d g).2
          = [FontDialogProperty.language])) := by
  refine ⟨fun d t => ?_, fun d m => ?_, fun d l => ?_, fun d g => ?_⟩
  · by_cases h : d.title = t <;> simp [gtk_font_dialog_set_title, h]
  · by_cases h : d.modal = m <;> simp [gtk_font_dialog_set_modal, h]
  · by_cases h : d.level = l <;> simp [gtk_font_dialog_set_level, h]
  · by_cases h : d.language = g <;> simp [gtk_font_dialog_set_language, h]

/-- C9 witness: the setter theorem applied to the freshly initialized
dialog, once with the already-stored title (no change, no notification) and
once with a different title (one notification for the title property). -/
theorem gtk_font_dialog_setters_witness :
    gtk_font_dialog_set_title gtk_font_dialog_init "Pick a Font"
        = (gtk_font_dialog_init, []) ∧
    (gtk_font_dialog_set_title gtk_font_dialog_init "Other").2
        = [FontDialogProperty.title] :=
  ⟨(gtk_font_dialog_setters.1 gtk_font_dialog_init "Pick a Font").2.1
      rfl,
   ((gtk_font_dialog_setters.1 gtk_font_dialog_init "Other").2.2
      (by decide)).2⟩

/-- C10: finishing a choose_font task returns true and writes both output
locations exactly when the dialog responded GTK_RESPONSE_OK; on every other
response the task completes with a G_IO_ERROR_CANCELLED error and finishing
returns false with the output locations untouched, and the cancellation
path through the GCancellable handler lands in that same cancelled case. -/
theorem gtk_font_dialog_choose_font_finish_cases
    (w : GtkFontChooserDialog) (outs : OutLocations) (resp : Int) :
    (resp = GTK_RESPONSE_OK →
      gtk_font_dialog_choose_font_finish (response_cb w resp) outs =
        (true, ⟨some w.font_desc, some w.font_features⟩, none)) ∧
    (resp ≠ GTK_RESPONSE_OK →
      response_cb w resp = .error .cancelled ∧
      gtk_font_dialog_choose_font_finish (response_cb w resp) outs =
        (false, outs, some .cancelled)) ∧
    gtk_font_dialog_choose_font_finish (cancelled_cb w) outs =
      (false, outs, some .cancelled) := by
  refine ⟨fun h => ?_, fun h => ?_, ?_⟩
  · simp [response_cb, gtk_font_dialog_choose_font_finish, h]
  · simp [response_cb, gtk_font_dialog_choose_font_finish, h]
  · simp [cancelled_cb, response_cb, gtk_font_dialog_choose_font_finish,
      GTK_RESPONSE_CANCEL, GTK_RESPONSE_OK]

/-- C10 witness: the finish case split applied to a concrete window and
empty output locations, at the concrete responses GTK_RESPONSE_OK and
GTK_RESPONSE_CANCEL. -/
theorem gtk_font_dialog_choose_font_finish_cases_witness :
    ((-5 : Int) = GTK_RESPONSE_OK) ∧
    gtk_font_dialog_choose_font_finish
        (response_cb ⟨1, 2⟩ (-5)) ⟨none, none⟩ =
      (true, ⟨some 1, some 2⟩, none) ∧
    ((-6 : Int) ≠ GTK_RESPONSE_OK) ∧
    gtk_font_dialog_choose_font_finish
        (response_cb ⟨1, 2⟩ (-6)) ⟨none, none⟩ =
      (false, ⟨none, none⟩, some GErrorKind.cancelled) :=
  ⟨rfl,
   (gtk_font_dialog_choose_font_finish_cases ⟨1, 2⟩ ⟨none, none⟩ (-5)).1 rfl,
   by decide,
   ((gtk_font_dialog_choose_font_finish_cases ⟨1, 2⟩ ⟨none, none⟩
      (-6)).2.1 (by decide)).2⟩

end GtkFontDialogModel
